import Mathlib

/-!
Shallow embedding of the log relay and ring-buffer query engine of
vite-plugin-terminal-mcp: the `LogStore` class (src/logStore.ts), the
MCP query tool handlers (src/mcp-server.ts) and the `/__terminal`
ingestion middleware (`configureServer` in the plugin).

JS numbers that can be `NaN` (the middleware decodes query parameters
with `Number.parseInt`) are embedded as `Option Int`, `none` standing
for `NaN`; comparisons on them mirror the IEEE behaviour that every
comparison with `NaN` is false.
-/

/-- JS number restricted to the integer values this program produces;
`none` is `NaN`. -/
abbrev JsNum := Option Int

/-- JS `a >= b` on such numbers: false whenever either side is `NaN`. -/
def jsGe : JsNum → JsNum → Bool
  | some a, some b => decide (b ≤ a)
  | _, _ => false

/-- The six log levels of the `StoredLog.method` union type in
src/logStore.ts. -/
inductive LogLevel where
  | log
  | info
  | debug
  | warn
  | error
  | assert
deriving DecidableEq, Repr

/-- The `StoredLog` interface of src/logStore.ts. The `message` string is
embedded as its list of characters. -/
structure StoredLog where
  method : LogLevel
  message : List Char
  timestamp : JsNum
  count : JsNum
  groupLevel : JsNum
deriving DecidableEq, Repr

/-- The `LogStore` class of src/logStore.ts: a list of logs (oldest first,
`push` appends at the end, `shift` removes the front) plus the `maxSize`
field set by the constructor (default 1000). -/
structure LogStore where
  logs : List StoredLog := []
  maxSize : Nat := 1000
deriving DecidableEq, Repr

/-- Method `LogStore.add`: push the log, then drop the oldest entry when the
length exceeds `maxSize`. -/
def LogStore.add (s : LogStore) (log : StoredLog) : LogStore :=
  let logs := s.logs ++ [log]
  if logs.length > s.maxSize then { s with logs := logs.tail }
  else { s with logs := logs }

/-- Method `LogStore.getAll`: a snapshot of the buffer (the copy `[...]` of a
list is the list itself). -/
def LogStore.getAll (s : LogStore) : List StoredLog :=
  s.logs

/-- Method `LogStore.getByLevel`: `logs.filter(log => log.method === level)`. -/
def LogStore.getByLevel (s : LogStore) (level : LogLevel) : List StoredLog :=
  s.logs.filter (fun log => log.method == level)

/-- Method `LogStore.getErrors`: logs whose method is `error` or `assert`. -/
def LogStore.getErrors (s : LogStore) : List StoredLog :=
  s.logs.filter (fun log => log.method == .error || log.method == .assert)

/-- JS `Array.prototype.slice(start)` with a single (possibly negative)
integer start argument: a negative start counts from the end, clamped
to the array bounds. -/
def jsSliceFrom (l : List StoredLog) (start : Int) : List StoredLog :=
  let len : Int := l.length
  let rel : Int := if start < 0 then max (len + start) 0 else min start len
  l.drop rel.toNat

/-- Method `LogStore.getRecent`: `logs.slice(-count)`. -/
def LogStore.getRecent (s : LogStore) (count : Int) : List StoredLog :=
  jsSliceFrom s.logs (-count)

/-- Method `LogStore.getRecentErrors`: `getErrors().slice(-count)`. -/
def LogStore.getRecentErrors (s : LogStore) (count : Int) : List StoredLog :=
  jsSliceFrom s.getErrors (-count)

/-- Method `LogStore.getSince`: `logs.filter(log => log.timestamp >= timestamp)`. -/
def LogStore.getSince (s : LogStore) (timestamp : JsNum) : List StoredLog :=
  s.logs.filter (fun log => jsGe log.timestamp timestamp)

/-- Method `LogStore.clear`: `this.logs = []` (the `maxSize` field is untouched). -/
def LogStore.clear (s : LogStore) : LogStore :=
  { s with logs := [] }

/-- The `size` getter: `logs.length`. -/
def LogStore.size (s : LogStore) : Nat :=
  s.logs.length

/-- A store built with capacity `cap` after the whole sequence `evs` of
`add` calls, starting from the empty store the constructor creates. -/
def addAll (cap : Nat) (evs : List StoredLog) : LogStore :=
  evs.foldl LogStore.add { logs := [], maxSize := cap }

/-! ## The `/__terminal` ingestion middleware (plugin `configureServer`) -/

/-- The eight wire methods accepted by the middleware
(the `methods` constant array: assert, debug, error, info, log, table, warn, clear). -/
inductive Method where
  | assert
  | debug
  | error
  | info
  | log
  | table
  | warn
  | clear
deriving DecidableEq, Repr

/-- The `logMethod` computation: an `assert` wire method becomes `error`, every other method is kept. -/
def normalizeMethod (m : Method) : Method :=
  if m = .assert then .error else m

/-- View a wire method as a storable log level; `table` and `clear` have
none. -/
def methodLevel : Method → Option LogLevel
  | .assert => some .assert
  | .debug => some .debug
  | .error => some .error
  | .info => some .info
  | .log => some .log
  | .warn => some .warn
  | .table => none
  | .clear => none

/-- Default of the `levels` MCP option:
all six levels, error first. -/
def defaultLevels : List LogLevel :=
  [.error, .warn, .info, .log, .debug, .assert]

/-- Whitespace stripped by JS `parseInt` (the WhiteSpace / LineTerminator
code points this program can meet in a query string). -/
def isJsSpace (c : Char) : Bool :=
  c == ' ' || c == '\t' || c == '\n' || c == '\r' || c == '\x0b' || c == '\x0c'

/-- Value of one digit character under the given radix, if it is one. -/
def digitValue? (radix : Nat) (c : Char) : Option Nat :=
  let v : Option Nat :=
    if '0' ≤ c ∧ c ≤ '9' then some (c.toNat - 48)
    else if 'a' ≤ c ∧ c ≤ 'z' then some (c.toNat - 87)
    else if 'A' ≤ c ∧ c ≤ 'Z' then some (c.toNat - 55)
    else none
  match v with
  | some d => if d < radix then some d else none
  | none => none

/-- Accumulate the longest leading run of digits; `none` when the run is
empty (JS `parseInt` then yields `NaN`). -/
def leadingNatAux (radix : Nat) (acc : Option Nat) : List Char → Option Nat
  | [] => acc
  | c :: cs =>
    match digitValue? radix c with
    | some d => leadingNatAux radix (some (acc.getD 0 * radix + d)) cs
    | none => acc

/-- JS `Number.parseInt(s)` with no radix argument: strip leading
whitespace, read an optional sign, switch to base 16 after a `0x`/`0X`
prefix, then convert the longest leading digit run; no digits means
`NaN`. -/
def jsParseInt (s : String) : JsNum :=
  let cs := s.data.dropWhile isJsSpace
  let (neg, cs1) :=
    match cs with
    | '-' :: r => (true, r)
    | '+' :: r => (false, r)
    | r => (false, r)
  let (radix, cs2) :=
    match cs1 with
    | '0' :: 'x' :: r => (16, r)
    | '0' :: 'X' :: r => (16, r)
    | r => (10, r)
  match leadingNatAux radix none cs2 with
  | some n => some (if neg then -(n : Int) else (n : Int))
  | none => none

/-- A numeric query parameter as the middleware reads it:
`Number.parseInt` of the raw value, with the string 0 as fallback when the parameter is absent. -/
def decodeNumParam (p : Option String) : JsNum :=
  jsParseInt (p.getD "0")

/-- The message rewrite `(searchParams.get(m) ?? BLANK).split(NL).join(NL + two spaces)`, character by
character: each newline gains two following spaces. -/
def rewriteNl : List Char → List Char
  | [] => []
  | c :: cs =>
    if c = '\n' then '\n' :: ' ' :: ' ' :: rewriteNl cs
    else c :: rewriteNl cs

/-- The four query parameters of a `/__terminal` request, each possibly
absent. -/
structure Params where
  m : Option String
  t : Option String
  c : Option String
  g : Option String
deriving Repr

/-- The `StoredLog` the middleware builds for a storable request: the
already-normalized `logMethod`, the newline-rewritten message, and the
`parseInt`-decoded `t`, `c` and `g` parameters. -/
def decodeStoredLog (level : LogLevel) (p : Params) : StoredLog :=
  { method := level
  , message := rewriteNl (p.m.getD "").data
  , timestamp := decodeNumParam p.t
  , count := decodeNumParam p.c
  , groupLevel := decodeNumParam p.g }

/-- Effect of one `/__terminal` request on the MCP store: the event is
added exactly when the method is neither `clear` nor `table` and the
normalized `logMethod` is in the configured `levels`
(`shouldStoreInMCP`); otherwise the store is untouched. -/
def handleTerminal (levels : List LogLevel) (s : LogStore) (method : Method)
    (p : Params) : LogStore :=
  match methodLevel (normalizeMethod method) with
  | some lvl =>
    if method ≠ .clear ∧ method ≠ .table ∧ lvl ∈ levels then
      s.add (decodeStoredLog lvl p)
    else s
  | none => s

/-! ## The MCP query tools (src/mcp-server.ts, `createMCPServer`) -/

/-- The `z.enum` literal list validating the `level` input of the
`get-console-logs` tool. -/
def levelEnumStrings : List String :=
  ["log", "info", "debug", "warn", "error", "assert", "all"]

/-- The enum string of a level filter as a `LogLevel` (never `"all"`). -/
def strToLevel? : String → Option LogLevel
  | "log" => some .log
  | "info" => some .info
  | "debug" => some .debug
  | "warn" => some .warn
  | "error" => some .error
  | "assert" => some .assert
  | _ => none

/-- The `get-console-logs` tool on a `level` string input: schema
validation rejects (result `none`) any level outside the enum before the
handler runs; otherwise the handler reads
`getRecent(count)` for `"all"` or `getByLevel(level).slice(-count)`.
The store is returned alongside: the handler never mutates it. -/
def runGetConsoleLogs (s : LogStore) (count : Int) (level : String) :
    Option (List StoredLog) × LogStore :=
  if level ∈ levelEnumStrings then
    if level = "all" then (some (s.getRecent count), s)
    else
      match strToLevel? level with
      | some lvl => (some (jsSliceFrom (s.getByLevel lvl) (-count)), s)
      | none => (none, s)
  else (none, s)

/-- The `clear-console-logs` tool: read `logStore.size` into
`previousSize`, clear, and report `previousSize` as the cleared count. -/
def runClearConsoleLogs (s : LogStore) : Nat × LogStore :=
  let previousSize := s.size
  (previousSize, s.clear)

/-- Structured content of the `get-console-stats` tool. -/
structure ConsoleStats where
  total : Nat
  errors : Nat
  warnings : Nat
  info : Nat
  debug : Nat
  log : Nat
  oldestTimestamp : Option JsNum
  newestTimestamp : Option JsNum
deriving DecidableEq, Repr

/-- The `get-console-stats` tool handler: lengths of `getAll`,
`getErrors` and the per-level filters, and the timestamps of `all[0]`
and `all[all.length - 1]` when `all.length > 0`, else `null`. -/
def runGetConsoleStats (s : LogStore) : ConsoleStats :=
  let all := s.getAll
  { total := all.length
  , errors := s.getErrors.length
  , warnings := (s.getByLevel .warn).length
  , info := (s.getByLevel .info).length
  , debug := (s.getByLevel .debug).length
  , log := (s.getByLevel .log).length
  , oldestTimestamp :=
      if h : 0 < all.length then some (all.get ⟨0, h⟩).timestamp else none
  , newestTimestamp :=
      if h : 0 < all.length then
        some (all.get ⟨all.length - 1, by omega⟩).timestamp
      else none }

/-! ## Concrete events for the spec scenarios -/

/-- Event A of the capacity-2 scenario. -/
def evA : StoredLog := ⟨.log, ['A'], some 1, some 0, some 0⟩

/-- Event B of the capacity-2 scenario. -/
def evB : StoredLog := ⟨.log, ['B'], some 2, some 1, some 0⟩

/-- Event C of the capacity-2 scenario. -/
def evC : StoredLog := ⟨.log, ['C'], some 3, some 2, some 0⟩

/-- Timestamp-100 event (level log) of the out-of-order scenario. -/
def ev100 : StoredLog := ⟨.log, ['a'], some 100, some 0, some 0⟩

/-- Timestamp-200 event (level error) of the out-of-order scenario. -/
def ev200 : StoredLog := ⟨.error, ['b'], some 200, some 1, some 0⟩

/-- Timestamp-50 event (level warn) of the out-of-order scenario. -/
def ev50 : StoredLog := ⟨.warn, ['c'], some 50, some 2, some 0⟩

/-- Timestamp-300 event (level error) of the out-of-order scenario. -/
def ev300 : StoredLog := ⟨.error, ['d'], some 300, some 3, some 0⟩

/-- The store holding the four out-of-order events in insertion order. -/
def scenarioStore : LogStore := ⟨[ev100, ev200, ev50, ev300], 1000⟩

/-! ## Helper lemmas about the store -/

theorem LogStore.add_maxSize (s : LogStore) (e : StoredLog) :
    (s.add e).maxSize = s.maxSize := by
  unfold LogStore.add
  dsimp only
  split <;> rfl

theorem drop_append_small {α : Type} (l l' : List α) (n : Nat) (h : n ≤ l.length) :
    (l ++ l').drop n = l.drop n ++ l' := by
  rw [List.drop_append_eq_append_drop]
  have h0 : n - l.length = 0 := by omega
  rw [h0, List.drop_zero]

theorem LogStore.add_logs_drop (s : LogStore) (e : StoredLog)
    (h : s.logs.length ≤ s.maxSize) :
    (s.add e).logs = (s.logs ++ [e]).drop (s.logs.length + 1 - s.maxSize) := by
  unfold LogStore.add
  dsimp only
  by_cases hc : (s.logs ++ [e]).length > s.maxSize
  · rw [if_pos hc]
    have hc1 : s.logs.length + 1 > s.maxSize := by simpa using hc
    have h1 : s.logs.length + 1 - s.maxSize = 1 := by omega
    rw [h1, ← List.drop_one]
  · rw [if_neg hc]
    have hc1 : ¬(s.logs.length + 1 > s.maxSize) := by simpa using hc
    have h0 : s.logs.length + 1 - s.maxSize = 0 := by omega
    rw [h0, List.drop_zero]

theorem addAll_append (cap : Nat) (evs : List StoredLog) (e : StoredLog) :
    addAll cap (evs ++ [e]) = (addAll cap evs).add e := by
  unfold addAll
  rw [List.foldl_append]
  rfl

theorem foldl_add_maxSize (evs : List StoredLog) (s : LogStore) :
    (evs.foldl LogStore.add s).maxSize = s.maxSize := by
  induction evs generalizing s with
  | nil => rfl
  | cons e evs ih => rw [List.foldl_cons, ih, LogStore.add_maxSize]

theorem addAll_maxSize (cap : Nat) (evs : List StoredLog) :
    (addAll cap evs).maxSize = cap :=
  foldl_add_maxSize evs _

theorem addAll_logs (cap : Nat) (evs : List StoredLog) :
    (addAll cap evs).logs = evs.drop (evs.length - cap) := by
  induction evs using List.reverseRecOn with
  | nil => simp [addAll]
  | append_singleton l e ih =>
    rw [addAll_append]
    have hmax : (addAll cap l).maxSize = cap := addAll_maxSize cap l
    have hle : (addAll cap l).logs.length ≤ (addAll cap l).maxSize := by
      rw [hmax, ih, List.length_drop]; omega
    rw [LogStore.add_logs_drop _ _ hle, ih, hmax, List.length_drop]
    rcases le_or_lt cap l.length with h | h
    · have h1 : l.length - (l.length - cap) + 1 - cap = 1 := by omega
      rw [h1]
      rcases Nat.eq_zero_or_pos cap with h0 | h1
      · subst h0
        simp
      · have hlen1 : 1 ≤ (l.drop (l.length - cap)).length := by
          rw [List.length_drop]; omega
        rw [drop_append_small _ _ 1 hlen1, List.drop_drop]
        have hr : (l ++ [e]).length - cap = (l.length - cap) + 1 := by
          rw [List.length_append]; simp; omega
        rw [hr, drop_append_small _ _ _ (by omega)]
    · have h4 : (l ++ [e]).length - cap = 0 := by
        rw [List.length_append]; simp; omega
      have h2 : l.length - cap = 0 := by omega
      rw [h2, h4]
      have h3 : l.length - 0 + 1 - cap = 0 := by omega
      rw [h3, List.drop_zero, List.drop_zero, List.drop_zero]

/-- C1: for every capacity and sequence of adds, the store after the adds
holds exactly the last `capacity` events in insertion order (oldest
first), so its size is `min(totalAdds, capacity)`; in particular adding
A, B, C to a capacity-2 store makes `getAll()` return `[B, C]`. -/
theorem C1_capacity_fifo (cap : Nat) (evs : List StoredLog) :
    (addAll cap evs).getAll = evs.drop (evs.length - cap) ∧
    (addAll cap evs).size = min evs.length cap ∧
    (addAll 2 [evA, evB, evC]).getAll = [evB, evC] := by
  refine ⟨addAll_logs cap evs, ?_, by decide⟩
  show (addAll cap evs).logs.length = min evs.length cap
  rw [addAll_logs, List.length_drop]
  omega

/-! ## Slice helper lemmas -/

theorem jsSliceFrom_neg (l : List StoredLog) (k : Nat) (hk : 0 < k) :
    jsSliceFrom l (-(k : Int)) = l.drop (l.length - k) := by
  simp only [jsSliceFrom]
  rw [if_pos (by omega)]
  congr 1
  omega

theorem jsSliceFrom_nonneg (l : List StoredLog) (k : Nat) :
    jsSliceFrom l (k : Int) = l.drop (min k l.length) := by
  simp only [jsSliceFrom]
  rw [if_neg (by omega)]
  congr 1
  omega

/-- C2 counterexample: on a store holding one event, `getRecent(0)` is the
full store, not the empty sequence the claim requires for `n <= 0`
(JS `slice(-0)` is `slice(0)`). -/
theorem C2_counterexample :
    (LogStore.mk [evA] 1000).getRecent 0 = [evA] ∧
    (LogStore.mk [evA] 1000).getRecent 0 ≠ [] := by
  decide

/-- C2 amended: `getRecent(n)` for `n > 0` returns the last
`min(n, size)` events in store order (so the full store once
`n >= size`); but `getRecent(0)` returns the full store, and for
`n < 0` it returns the store with its first `min(-n, size)` events
removed, because `slice(-n)` with a non-positive `n` is a
drop-from-the-front slice, not an empty one. -/
theorem C2_amended_getRecent (s : LogStore) (n : Nat) :
    s.getRecent ((n : Int) + 1) = s.logs.drop (s.logs.length - (n + 1)) ∧
    (s.getRecent ((n : Int) + 1)).length = min (n + 1) s.logs.length ∧
    s.getRecent 0 = s.logs ∧
    s.getRecent (-(n : Int)) = s.logs.drop (min n s.logs.length) := by
  have h1 : s.getRecent ((n : Int) + 1) = s.logs.drop (s.logs.length - (n + 1)) := by
    show jsSliceFrom s.logs (-((n : Int) + 1)) = _
    have hcast : -((n : Int) + 1) = -(((n + 1 : Nat)) : Int) := by push_cast; ring
    rw [hcast, jsSliceFrom_neg _ _ (by omega)]
  refine ⟨h1, ?_, ?_, ?_⟩
  · rw [h1, List.length_drop]; omega
  · show jsSliceFrom s.logs (-(0 : Int)) = s.logs
    have hz : (-(0 : Int)) = ((0 : Nat) : Int) := by norm_num
    rw [hz, jsSliceFrom_nonneg]
    simp
  · show jsSliceFrom s.logs (-(-(n : Int))) = _
    rw [neg_neg]
    exact jsSliceFrom_nonneg s.logs n

/-- C4: `getByLevel(L)` returns exactly the stored events whose level is
`L`, as a subsequence of the store (hence in original relative order),
and `getErrors()` returns exactly those whose level is `error` or
`assert`, in store order. -/
theorem C4_level_filter (s : LogStore) (L : LogLevel) :
    (s.getByLevel L).Sublist s.logs ∧
    (∀ e, e ∈ s.getByLevel L ↔ e ∈ s.logs ∧ e.method = L) ∧
    s.getErrors.Sublist s.logs ∧
    (∀ e, e ∈ s.getErrors ↔ e ∈ s.logs ∧ (e.method = .error ∨ e.method = .assert)) := by
  refine ⟨List.filter_sublist _, ?_, List.filter_sublist _, ?_⟩
  · intro e
    simp [LogStore.getByLevel, List.mem_filter]
  · intro e
    simp [LogStore.getErrors, List.mem_filter]

/-- C5: `getSince(t)` is a superset of `getSince(t')` whenever `t <= t'`,
every returned event has `timestamp >= t`, results are a subsequence of
the store (insertion order preserved); with the out-of-order scenario
store, `getSince(150)` is exactly the timestamp-200 and timestamp-300
events in insertion order. -/
theorem C5_since_monotone (s : LogStore) (t t' : Int) (h : t ≤ t') :
    (∀ e ∈ s.getSince (some t'), e ∈ s.getSince (some t)) ∧
    (∀ e ∈ s.getSince (some t), jsGe e.timestamp (some t) = true) ∧
    (s.getSince (some t)).Sublist s.logs ∧
    scenarioStore.getSince (some 150) = [ev200, ev300] := by
  refine ⟨?_, ?_, List.filter_sublist _, by decide⟩
  · intro e he
    rw [LogStore.getSince, List.mem_filter] at he ⊢
    obtain ⟨hmem, hge⟩ := he
    refine ⟨hmem, ?_⟩
    cases hts : e.timestamp with
    | none =>
      rw [hts] at hge
      simp [jsGe] at hge
    | some v =>
      rw [hts] at hge
      simp only [jsGe, decide_eq_true_eq] at hge ⊢
      omega
  · intro e he
    rw [LogStore.getSince, List.mem_filter] at he
    exact he.2

/-- C5 witness: the monotonicity statement instantiated at the scenario
store with `t = 100 <= 150 = t'`. -/
theorem C5_since_monotone_witness :
    (∀ e ∈ scenarioStore.getSince (some 150), e ∈ scenarioStore.getSince (some 100)) ∧
    (∀ e ∈ scenarioStore.getSince (some 100), jsGe e.timestamp (some 100) = true) ∧
    (scenarioStore.getSince (some 100)).Sublist scenarioStore.logs ∧
    scenarioStore.getSince (some 150) = [ev200, ev300] :=
  C5_since_monotone scenarioStore 100 150 (by decide)

/-- C6: the get-console-stats handler reports `total` equal to the store
size, and `oldestTimestamp` / `newestTimestamp` are null exactly when
the store is empty, otherwise the timestamps of the first and last
stored events. -/
theorem C6_stats (s : LogStore) :
    (runGetConsoleStats s).total = s.size ∧
    ((runGetConsoleStats s).oldestTimestamp = none ↔ s.size = 0) ∧
    ((runGetConsoleStats s).newestTimestamp = none ↔ s.size = 0) ∧
    (runGetConsoleStats s).oldestTimestamp = s.logs.head?.map (·.timestamp) ∧
    (runGetConsoleStats s).newestTimestamp = s.logs.getLast?.map (·.timestamp) := by
  obtain ⟨logs, mx⟩ := s
  cases logs with
  | nil =>
    refine ⟨rfl, by simp [runGetConsoleStats, LogStore.getAll, LogStore.size], ?_, ?_, ?_⟩ <;>
      simp [runGetConsoleStats, LogStore.getAll, LogStore.size]
  | cons x xs =>
    have hlen : 0 < (LogStore.mk (x :: xs) mx).getAll.length := by
      simp [LogStore.getAll]
    refine ⟨rfl, ?_, ?_, ?_, ?_⟩
    · simp [runGetConsoleStats, hlen, LogStore.size, LogStore.getAll]
    · simp [runGetConsoleStats, hlen, LogStore.size, LogStore.getAll]
    · simp [runGetConsoleStats, hlen, LogStore.getAll]
    · rw [List.getLast?_eq_getElem?, List.getElem?_eq_getElem (by simp)]
      simp [runGetConsoleStats, hlen, LogStore.getAll, List.get_eq_getElem]

/-- C8: the clear tool reports the prior size as its cleared count and
empties the store; on an empty store it reports 0 and leaves size 0, and
a second clear in a row behaves exactly like the first call on the
already-empty store. -/
theorem C8_clear (s : LogStore) (cap : Nat) :
    (runClearConsoleLogs s).1 = s.size ∧
    (runClearConsoleLogs s).2.size = 0 ∧
    runClearConsoleLogs (runClearConsoleLogs s).2 = (0, (runClearConsoleLogs s).2) ∧
    runClearConsoleLogs { logs := [], maxSize := cap } = (0, { logs := [], maxSize := cap }) := by
  exact ⟨rfl, rfl, rfl, rfl⟩

/-- C9: a get-console-logs query whose level is outside the enum (such as
"critical") is rejected by schema validation before the handler touches
the store, and the store is unchanged by the rejected query. -/
theorem C9_malformed_query (s : LogStore) (count : Int) :
    runGetConsoleLogs s count "critical" = (none, s) ∧
    (runGetConsoleLogs s count "critical").2.getAll = s.getAll := by
  have h : runGetConsoleLogs s count "critical" = (none, s) := by
    unfold runGetConsoleLogs
    rw [if_neg (by decide)]
  exact ⟨h, by rw [h]⟩

/-! ## Middleware lemmas -/

theorem LogStore.mem_add_self (s : LogStore) (e : StoredLog) (h : 1 ≤ s.maxSize) :
    e ∈ (s.add e).logs := by
  unfold LogStore.add
  dsimp only
  by_cases hc : (s.logs ++ [e]).length > s.maxSize
  · rw [if_pos hc]
    cases hl : s.logs with
    | nil =>
      rw [hl] at hc
      simp at hc
      omega
    | cons x xs =>
      simp
  · rw [if_neg hc]
    simp

theorem handleTerminal_assert (levels : List LogLevel) (s : LogStore) (p : Params)
    (hlv : LogLevel.error ∈ levels) :
    handleTerminal levels s .assert p = s.add (decodeStoredLog .error p) := by
  simp [handleTerminal, normalizeMethod, methodLevel, hlv]

/-- The parameters of the concrete assert envelope used below. -/
def pAssert : Params := ⟨some "Assertion failed: x", some "100", some "0", some "0"⟩

/-- C3 counterexample: relaying one assert envelope into an empty store
(default levels, capacity 1000) stores one event whose level tag is
`error`, not `assert`; `getByLevel(assert)` therefore returns nothing,
against the claim that it returns exactly the assert-emitted events. -/
theorem C3_counterexample :
    ((handleTerminal defaultLevels ⟨[], 1000⟩ .assert pAssert).logs.map
        (fun e => e.method)) = [.error] ∧
    (handleTerminal defaultLevels ⟨[], 1000⟩ .assert pAssert).getByLevel .assert = [] ∧
    (handleTerminal defaultLevels ⟨[], 1000⟩ .assert pAssert).size = 1 := by
  decide

/-- C3 amended: an assert envelope is stored renamed to level `error`
(`logMethod`), so it is returned by `getErrors()` (and by
`getByLevel(error)`), while `getByLevel(assert)` gains nothing from it:
the assert identity is not retained in storage or level filtering. -/
theorem C3_amended_assert_stored_as_error (levels : List LogLevel) (s : LogStore)
    (p : Params) (hcap : 1 ≤ s.maxSize) (hlv : LogLevel.error ∈ levels) :
    handleTerminal levels s .assert p = s.add (decodeStoredLog .error p) ∧
    (decodeStoredLog .error p).method = .error ∧
    decodeStoredLog .error p ∈ (handleTerminal levels s .assert p).getErrors ∧
    (∀ e ∈ (handleTerminal levels s .assert p).getByLevel .assert,
      e ∈ s.getByLevel .assert) := by
  have hrun := handleTerminal_assert levels s p hlv
  refine ⟨hrun, rfl, ?_, ?_⟩
  · rw [hrun, LogStore.getErrors, List.mem_filter]
    exact ⟨LogStore.mem_add_self _ _ hcap, rfl⟩
  · intro e he
    rw [hrun, LogStore.getByLevel, List.mem_filter] at he
    rw [LogStore.getByLevel, List.mem_filter]
    obtain ⟨hmem, hcond⟩ := he
    have hmem2 : e ∈ s.logs ++ [decodeStoredLog .error p] := by
      revert hmem
      unfold LogStore.add
      dsimp only
      by_cases hc : (s.logs ++ [decodeStoredLog .error p]).length > s.maxSize
      · rw [if_pos hc]
        intro hm
        exact (List.tail_sublist _).subset hm
      · rw [if_neg hc]
        intro hm
        exact hm
    rcases List.mem_append.mp hmem2 with h1 | h1
    · exact ⟨h1, hcond⟩
    · exfalso
      rw [List.mem_singleton] at h1
      subst h1
      simp [decodeStoredLog] at hcond
  
/-- C3 witness: the amended statement instantiated at the empty store
with default levels and the concrete assert envelope. -/
theorem C3_amended_assert_stored_as_error_witness :
    handleTerminal defaultLevels ⟨[], 1000⟩ .assert pAssert
        = LogStore.add ⟨[], 1000⟩ (decodeStoredLog .error pAssert) ∧
    (decodeStoredLog .error pAssert).method = .error ∧
    decodeStoredLog .error pAssert
        ∈ (handleTerminal defaultLevels ⟨[], 1000⟩ .assert pAssert).getErrors ∧
    (∀ e ∈ (handleTerminal defaultLevels ⟨[], 1000⟩ .assert pAssert).getByLevel .assert,
      e ∈ LogStore.getByLevel ⟨[], 1000⟩ .assert) :=
  C3_amended_assert_stored_as_error defaultLevels ⟨[], 1000⟩ pAssert
    (by decide) (by decide)

/-- C7 counterexample: the timestamp parameter "abc" is not a well-formed
number and decodes to NaN, not to 0 as the claim requires. -/
theorem C7_counterexample :
    decodeNumParam (some "abc") = (none : JsNum) ∧
    (decodeStoredLog .log ⟨none, some "abc", none, none⟩).timestamp ≠ some 0 := by
  decide

/-- C7 amended: a missing numeric field decodes to 0 (the middleware
falls back to the string 0 before parsing); a malformed one such as
"abc" decodes to NaN under JS parseInt semantics — still never an
error, but not the value 0. -/
theorem C7_amended_decode (lvl : LogLevel) (ms : Option String) :
    (decodeStoredLog lvl ⟨ms, none, none, none⟩).timestamp = some 0 ∧
    (decodeStoredLog lvl ⟨ms, none, none, none⟩).count = some 0 ∧
    (decodeStoredLog lvl ⟨ms, none, none, none⟩).groupLevel = some 0 ∧
    decodeNumParam (some "abc") = (none : JsNum) :=
  ⟨rfl, rfl, rfl, by decide⟩

/-! ## Newline rewriting lemmas -/

theorem rewriteNl_length (m : List Char) :
    (rewriteNl m).length = m.length + 2 * m.count '\n' := by
  induction m with
  | nil => rfl
  | cons c cs ih =>
    by_cases h : c = '\n'
    · subst h
      simp [rewriteNl, List.count_cons, ih]
      omega
    · simp [rewriteNl, h, List.count_cons, ih, Ne.symm h]
      omega

theorem rewriteNl_eq_self (m : List Char) (h : '\n' ∉ m) : rewriteNl m = m := by
  induction m with
  | nil => rfl
  | cons c cs ih =>
    rw [List.mem_cons] at h
    push_neg at h
    have hcn : c ≠ '\n' := fun hc => h.1 hc.symm
    simp only [rewriteNl, if_neg hcn]
    rw [ih h.2]

theorem rewriteNl_ne_self (m : List Char) (h : '\n' ∈ m) : rewriteNl m ≠ m := by
  intro heq
  have hlen := congrArg List.length heq
  rw [rewriteNl_length] at hlen
  have hpos : 0 < m.count '\n' := List.count_pos_iff.mpr h
  omega

/-- C10: the middleware rewrites the decoded message before storage,
inserting two spaces after every newline, so a multi-line message is
stored not byte-identical to what the producer sent, while a
single-line message is stored verbatim. -/
theorem C10_message_rewrite (lvl : LogLevel) (msg : String) :
    ('\n' ∈ msg.data →
      (decodeStoredLog lvl ⟨some msg, none, none, none⟩).message ≠ msg.data) ∧
    ('\n' ∉ msg.data →
      (decodeStoredLog lvl ⟨some msg, none, none, none⟩).message = msg.data) := by
  constructor
  · intro h
    show rewriteNl msg.data ≠ msg.data
    exact rewriteNl_ne_self _ h
  · intro h
    show rewriteNl msg.data = msg.data
    exact rewriteNl_eq_self _ h

/-- C10 witness: a two-line message is stored changed, a one-line message
verbatim. -/
theorem C10_message_rewrite_witness :
    (decodeStoredLog .log ⟨some "a\nb", none, none, none⟩).message ≠ "a\nb".data ∧
    (decodeStoredLog .log ⟨some "ab", none, none, none⟩).message = "ab".data :=
  ⟨(C10_message_rewrite .log "a\nb").1 (by decide),
   (C10_message_rewrite .log "ab").2 (by decide)⟩
